import Mathlib

/-!
Shallow embedding of `src/building_module1.py`, the ETL pipeline for the
USGS National Map education layers, together with proofs of the spec's
claims about it.

The embedding models:
* `extract_layer`'s pagination loop (`while True` / fetch / empty-batch
  break / `offset += PAGE_SIZE`) as a fuel-indexed recursion over a
  synthetic paginated service that serves a fixed list of records in
  pages of size `P` (`fetchPage`);
* a GeoDataFrame as a `Frame`: an optional CRS string, a column-label
  list, and rows each holding an optional geometry plus a value list
  (pandas frames are rectangular: see `Frame.WF`);
* `transform`'s four steps (geometry filter, CRS normalization, column
  renaming, metadata tagging) as `Frame → Frame` functions composed in
  source order;
* `pd.concat(..., ignore_index=True)` (the merge in `main`) as
  union-of-columns concatenation with null fill;
* `load_outputs` and the output directory as operations on an explicit
  filesystem state `FS`.
-/

namespace BuildingEtl

/-- A scalar attribute value of a feature record: pandas cell contents,
with `null` standing for None/NaN. -/
inductive Value where
  | null : Value
  | str : String → Value
  | num : Int → Value
deriving DecidableEq, Repr

/-- A geometry: a list of coordinate pairs (point, line or polygon ring
coordinates).  Reprojection is modelled as an arbitrary function on this
type, supplied as a parameter. -/
def Geom : Type := List (Int × Int)

instance : DecidableEq Geom := by
  unfold Geom
  infer_instance

/-- One feature record: an optional geometry (None for a missing
geometry) and the attribute values, positionally aligned with the owning
frame's column labels. -/
structure Row where
  geom : Option Geom
  vals : List Value
deriving DecidableEq

/-- A GeoDataFrame: an optional declared CRS (`gdf.crs`), the column
labels (`gdf.columns`, geometry kept separately in `Row.geom`), and the
rows. -/
structure Frame where
  crs : Option String
  columns : List String
  rows : List Row
deriving DecidableEq

/-- Rectangularity of a frame: every row has exactly one value per
column label.  Pandas DataFrames satisfy this by construction. -/
def Frame.WF (f : Frame) : Prop :=
  ∀ r ∈ f.rows, r.vals.length = f.columns.length

instance (f : Frame) : Decidable f.WF := by
  unfold Frame.WF
  infer_instance

/-! ## Configuration constants (`CONFIG` section of the source) -/

/-- Target coordinate reference system, `CRS_OUT = "EPSG:4326"`. -/
def CRS_OUT : String := "EPSG:4326"

/-- Page size used by the pagination loop, `PAGE_SIZE = 2000`. -/
def PAGE_SIZE : Nat := 2000

/-- Output directory path, `OUTPUT_DIR = Path("education_etl_output")`. -/
def OUTPUT_DIR : String := "education_etl_output"

/-- Configured layers, `EDUCATION_LAYERS` (name ↦ service layer id), in
the dict's declared iteration order. -/
def EDUCATION_LAYERS : List (String × Nat) :=
  [("schools", 76), ("colleges_universities", 74), ("technical_trade_schools", 75)]

/-! ## Extraction (`extract_layer`)

The remote service holding `records` answers a query with
`resultOffset = offset` and `resultRecordCount = P` with the records at
positions `offset .. offset+P-1`, i.e. `(records.drop offset).take P`,
and with an empty batch once `offset` is past the end. -/

/-- One page request against a synthetic service holding `records`:
returns the records at positions `offset .. offset+P-1`. -/
def fetchPage (records : List Row) (offset P : Nat) : List Row :=
  (records.drop offset).take P

/-- The `while True` pagination loop of `extract_layer`: fetch a page at
`offset`; an empty batch breaks the loop, otherwise the batch is
appended and `offset` advances by exactly `P`.  The recursion is
fuel-indexed because the source loop is unbounded; `extractLoop_total`
shows that `records.length + 2` fuel always suffices.  Returns the
accumulated records and the number of fetch calls made. -/
def extractLoop (records : List Row) (P : Nat) : Nat → Nat → Option (List Row × Nat)
  | _, 0 => none
  | offset, fuel + 1 =>
    let batch := fetchPage records offset P
    if batch.isEmpty then
      some ([], 1)
    else
      match extractLoop records P (offset + P) fuel with
      | none => none
      | some (rest, calls) => some (batch ++ rest, calls + 1)

/-- Errors of the pipeline (the source raises `RuntimeError` for an
empty layer; the spec calls it `EmptyLayerError`). -/
inductive EtlError where
  | emptyLayer : Nat → EtlError
deriving DecidableEq, Repr

/-- The body of `extract_layer` for layer `lid` against a synthetic
service holding `records` served in pages of size `P`: run the
pagination loop from offset 0, then raise `EmptyLayerError` when the
accumulator is empty.  Returns the accumulated records together with
the number of fetch calls.  The `getD` default is unreachable
(`extractLoop_total`). -/
def extract_layer (records : List Row) (P : Nat) (lid : Nat) :
    Except EtlError (List Row × Nat) :=
  let out := (extractLoop records P 0 (records.length + 2)).getD ([], 0)
  if out.1.isEmpty then
    Except.error (EtlError.emptyLayer lid)
  else
    Except.ok out

/-! ## Pagination loop lemmas -/

/-- A fetched page is empty exactly when the offset is past the end of
the service's record list (for a positive page size). -/
theorem fetchPage_isEmpty_iff (records : List Row) (offset P : Nat) (hP : 0 < P) :
    (fetchPage records offset P).isEmpty = true ↔ records.length ≤ offset := by
  simp only [fetchPage, List.isEmpty_iff, List.take_eq_nil_iff, List.drop_eq_nil_iff]
  omega

/-- Behavior of the pagination loop from an arbitrary offset, given
enough fuel: it returns every record from `offset` on, in service
order, and makes `⌈(N-offset)/P⌉ + 1` fetch calls. -/
theorem extractLoop_spec (records : List Row) (P : Nat) (hP : 0 < P) :
    ∀ fuel offset, records.length - offset + 2 ≤ fuel →
      extractLoop records P offset fuel =
        some (records.drop offset, (records.length - offset + P - 1) / P + 1) := by
  intro fuel
  induction fuel with
  | zero => intro offset h; omega
  | succ f ih =>
    intro offset h
    rw [extractLoop]
    by_cases hb : (fetchPage records offset P).isEmpty
    · rw [if_pos hb]
      rw [fetchPage_isEmpty_iff records offset P hP] at hb
      have hd : records.drop offset = [] := List.drop_eq_nil_iff.mpr hb
      have hz : records.length - offset = 0 := by omega
      rw [hd, hz]
      have : (0 + P - 1) / P = 0 := Nat.div_eq_of_lt (by omega)
      rw [this]
    · rw [if_neg hb]
      have hlt : offset < records.length := by
        by_contra hc
        exact hb ((fetchPage_isEmpty_iff records offset P hP).mpr (by omega))
      have hfuel : records.length - (offset + P) + 2 ≤ f := by omega
      rw [ih (offset + P) hfuel]
      dsimp only
      have hjoin : fetchPage records offset P ++ records.drop (offset + P) =
          records.drop offset := by
        have : records.drop (offset + P) = (records.drop offset).drop P := by
          rw [List.drop_drop]
        rw [this, fetchPage, List.take_append_drop]
      rw [hjoin]
      have hcalls : (records.length - (offset + P) + P - 1) / P + 1 =
          (records.length - offset + P - 1) / P := by
        set m := records.length - offset with hm
        have hm1 : 1 ≤ m := by omega
        by_cases hmp : P ≤ m
        · have h1 : records.length - (offset + P) = m - P := by omega
          rw [h1]
          have h2 : m - P + P - 1 = m - 1 := by omega
          have h3 : m + P - 1 = m - 1 + P := by omega
          rw [h2, h3, Nat.add_div_right _ hP]
        · have h1 : records.length - (offset + P) = 0 := by omega
          rw [h1]
          have h2 : (0 + P - 1) / P = 0 := Nat.div_eq_of_lt (by omega)
          rw [h2]
          have h3 : (m + P - 1) / P = 1 := by
            apply Nat.div_eq_of_lt_le
            · omega
            · omega
          rw [h3]
      rw [hcalls]

/-- The fuel `records.length + 2` supplied by `extract_layer` always
suffices: from offset 0 the loop returns all records and
`⌈N/P⌉ + 1` fetch calls. -/
theorem extractLoop_total (records : List Row) (P : Nat) (hP : 0 < P) :
    extractLoop records P 0 (records.length + 2) =
      some (records, (records.length + P - 1) / P + 1) := by
  have := extractLoop_spec records P hP (records.length + 2) 0 (by omega)
  simpa using this

/-- C1: for a service holding N records served in pages of size P,
extraction returns exactly the N records in service order and makes
exactly ⌈N/P⌉+1 fetch calls; the page at offset ⌈N/P⌉·P (the last call
of the loop) is the empty terminator, and every earlier call's page
(offset k·P, k < ⌈N/P⌉) is non-empty, so the empty batch is reached
only on the final call.  The loop itself (`extractLoop`) starts at
offset 0 and advances the offset by exactly P on every non-empty page,
with the empty batch its sole termination condition. -/
theorem extract_layer_pagination (records : List Row) (P lid : Nat)
    (hP : 0 < P) (hne : records ≠ []) :
    extract_layer records P lid =
      Except.ok (records, (records.length + P - 1) / P + 1)
    ∧ fetchPage records ((records.length + P - 1) / P * P) P = []
    ∧ ∀ k, k < (records.length + P - 1) / P → fetchPage records (k * P) P ≠ [] := by
  refine ⟨?_, ?_, ?_⟩
  · rw [extract_layer, extractLoop_total records P hP]
    have : records.isEmpty = false := by
      cases records with
      | nil => exact absurd rfl hne
      | cons a l => rfl
    simp [this]
  · have hge : records.length ≤ (records.length + P - 1) / P * P := by
      have h1 : records.length + P - 1 < ((records.length + P - 1) / P + 1) * P :=
        (Nat.div_lt_iff_lt_mul hP).mp (Nat.lt_succ_self _)
      rw [Nat.succ_mul] at h1
      omega
    have : (fetchPage records ((records.length + P - 1) / P * P) P).isEmpty = true :=
      (fetchPage_isEmpty_iff records _ P hP).mpr hge
    exact List.isEmpty_iff.mp this
  · intro k hk hemp
    have hlt : k * P < records.length := by
      have h1 : (k + 1) * P ≤ records.length + P - 1 :=
        (Nat.le_div_iff_mul_le hP).mp hk
      have h2 : 0 < records.length := List.length_pos.mpr hne
      have h3 : k * P + P ≤ records.length + P - 1 := by
        have : (k + 1) * P = k * P + P := by ring
        omega
      omega
    have : ¬ (fetchPage records (k * P) P).isEmpty = true := by
      rw [fetchPage_isEmpty_iff records _ P hP]
      omega
    exact this (List.isEmpty_iff.mpr hemp)

/-- Concrete witness for C1: a service of 3 records with page size 2
yields all 3 records in ⌈3/2⌉+1 = 3 fetch calls, and the last call
(offset 4) is the empty terminator. -/
theorem extract_layer_pagination_witness :
    extract_layer
        [⟨some [(0, 0)], []⟩, ⟨some [(1, 1)], []⟩, ⟨some [(2, 2)], []⟩] 2 76 =
      Except.ok
        ([⟨some [(0, 0)], []⟩, ⟨some [(1, 1)], []⟩, ⟨some [(2, 2)], []⟩], 3)
    ∧ fetchPage
        [⟨some [(0, 0)], []⟩, ⟨some [(1, 1)], []⟩, ⟨some [(2, 2)], []⟩] 4 2 = [] := by
  have h := extract_layer_pagination
    [⟨some [(0, 0)], []⟩, ⟨some [(1, 1)], []⟩, ⟨some [(2, 2)], []⟩] 2 76
    (by omega) (by simp)
  exact ⟨h.1, h.2.1⟩

/-! ## Column-name normalization (`transform`, lines 101-106)

The source does `gdf.columns.str.lower().str.replace(" ", "_")
.str.replace("-", "_")`: lower-case the label, then substitute every
space, then every hyphen, with an underscore.  `str.replace` with a
single-character literal pattern is exactly a character-wise
substitution. -/

/-- Character-wise substitution of `a` by `b`: the effect of pandas
`str.replace(a, b)` for one-character literal `a`, `b`. -/
def replaceCharKey (a b : Char) (s : String) : String :=
  String.mk (s.data.map (fun c => if c = a then b else c))

/-- Lower-casing of a label, pandas `str.lower()` (ASCII letters). -/
def lowerKey (s : String) : String :=
  String.mk (s.data.map Char.toLower)

/-- The full column-label normalization of `transform`: lower-case,
then `" " → "_"`, then `"-" → "_"`. -/
def normalizeKey (s : String) : String :=
  replaceCharKey '-' '_' (replaceCharKey ' ' '_' (lowerKey s))

/-- The single-character normalization that `normalizeKey` applies to
each character (used to state C7's characterization). -/
def normalizeChar (c : Char) : Char :=
  if c = ' ' ∨ c = '-' then '_' else c.toLower

/-- For a valid scalar value, `Char.ofNat` really carries that value. -/
theorem toNat_ofNat_valid (n : Nat) (h : n.isValidChar) : (Char.ofNat n).toNat = n := by
  rw [Char.ofNat, dif_pos h]
  rfl

/-- Every character is either fixed by `Char.toLower` or sent to a
lower-case ASCII letter (code 97-122). -/
theorem toLower_cases (c : Char) :
    Char.toLower c = c ∨
      (97 ≤ (Char.toLower c).toNat ∧ (Char.toLower c).toNat ≤ 122) := by
  rw [Char.toLower]
  by_cases h : c.toNat ≥ 65 ∧ c.toNat ≤ 90
  · right
    rw [if_pos h]
    have hv : (c.toNat + 32).isValidChar := by
      left
      show c.toNat + 32 < 55296
      omega
    rw [toNat_ofNat_valid _ hv]
    omega
  · left
    rw [if_neg h]

/-- `Char.toLower` never produces a space. -/
theorem toLower_ne_space (c : Char) (hc : c ≠ ' ') : Char.toLower c ≠ ' ' := by
  rcases toLower_cases c with h | h
  · rw [h]; exact hc
  · intro he
    rw [he] at h
    revert h
    decide

/-- `Char.toLower` never produces a hyphen. -/
theorem toLower_ne_hyphen (c : Char) (hc : c ≠ '-') : Char.toLower c ≠ '-' := by
  rcases toLower_cases c with h | h
  · rw [h]; exact hc
  · intro he
    rw [he] at h
    revert h
    decide

/-- `Char.toLower` is idempotent. -/
theorem toLower_toLower (c : Char) : Char.toLower (Char.toLower c) = Char.toLower c := by
  rcases toLower_cases c with h | h
  · rw [h]; exact h
  · rw [Char.toLower]
    have : ¬ ((Char.toLower c).toNat ≥ 65 ∧ (Char.toLower c).toNat ≤ 90) := by omega
    rw [if_neg this]

/-- Character-level reading of `normalizeKey`: each character of the
label is processed independently by `normalizeChar`. -/
theorem normalizeKey_data (s : String) :
    (normalizeKey s).data = s.data.map normalizeChar := by
  rw [normalizeKey, replaceCharKey, replaceCharKey, lowerKey]
  dsimp only
  simp only [List.map_map]
  apply List.map_congr_left
  intro c _
  simp only [Function.comp_apply]
  by_cases hs : c = ' '
  · subst hs; decide
  · by_cases hh : c = '-'
    · subst hh; decide
    · rw [if_neg (toLower_ne_space c hs), if_neg (toLower_ne_hyphen c hh),
        normalizeChar, if_neg (by tauto)]

/-! ## Transformation (`transform`, lines 85-112) -/

/-- Step 1 of `transform`: `gdf = gdf[gdf.geometry.notnull()].copy()` —
keep exactly the rows with a non-null geometry. -/
def filterGeom (f : Frame) : Frame :=
  { f with rows := f.rows.filter (fun r => r.geom.isSome) }

/-- Step 2 of `transform`: CRS normalization.  `reproj src` is the
geopandas `to_crs` reprojection of one geometry from CRS `src` to the
fixed target `CRS_OUT`; it is a parameter of the model.  If the frame
has no declared CRS, `set_crs(epsg=4326)` assigns the target without
touching any coordinate; otherwise `to_crs(CRS_OUT)` reprojects every
geometry. -/
def normalizeCrs (reproj : String → Geom → Geom) (f : Frame) : Frame :=
  match f.crs with
  | none => { f with crs := some CRS_OUT }
  | some src =>
    { f with crs := some CRS_OUT,
             rows := f.rows.map (fun r => { r with geom := r.geom.map (reproj src) }) }

/-- Step 3 of `transform`: rename every column label with
`normalizeKey` (a pure relabeling — values stay in place, duplicate
results are kept). -/
def renameCols (f : Frame) : Frame :=
  { f with columns := f.columns.map normalizeKey }

/-- The cell update a pandas scalar column assignment performs on one
row: positions whose label is `n` receive `v`, all others keep their
value. -/
def assignFun (n : String) (v : Value) (p : String × Value) : Value :=
  if p.1 = n then v else p.2

/-- Pandas scalar column assignment `df[name] = v` (step 4 of
`transform`): if the label already exists, every position with that
label is set to `v` in every row; otherwise a new column is appended on
the right holding `v` in every row. -/
def setCol (name : String) (v : Value) (f : Frame) : Frame :=
  if name ∈ f.columns then
    { f with rows := f.rows.map (fun r =>
        { r with vals := (f.columns.zip r.vals).map (assignFun name v) }) }
  else
    { f with columns := f.columns ++ [name],
             rows := f.rows.map (fun r => { r with vals := r.vals ++ [v] }) }

/-- Constant metadata value injected as `facility_category`. -/
def FACILITY_CATEGORY : Value := Value.str "education"

/-- The full `transform(gdf, layer_name)` of the source: geometry
filter, CRS normalization, column renaming, metadata tagging, in
source order. -/
def transform (reproj : String → Geom → Geom) (gdf : Frame) (layer_name : String) : Frame :=
  setCol "facility_type" (Value.str layer_name)
    (setCol "facility_category" FACILITY_CATEGORY
      (renameCols (normalizeCrs reproj (filterGeom gdf))))

/-! ## Per-step facts used by several claims -/

/-- `setCol` does not touch geometries. -/
theorem setCol_geoms (name : String) (v : Value) (f : Frame) :
    (setCol name v f).rows.map Row.geom = f.rows.map Row.geom := by
  rw [setCol]
  split <;> simp [List.map_map, Function.comp]

/-- `setCol` preserves the CRS. -/
theorem setCol_crs (name : String) (v : Value) (f : Frame) :
    (setCol name v f).crs = f.crs := by
  rw [setCol]
  split <;> rfl

/-- Geometries of the transformed frame: the null-geometry records are
dropped, and then the branch of step 2 applies. -/
theorem transform_geoms (reproj : String → Geom → Geom) (gdf : Frame) (L : String) :
    (transform reproj gdf L).rows.map Row.geom =
      match gdf.crs with
      | none => (gdf.rows.filter (fun r => r.geom.isSome)).map Row.geom
      | some src => (gdf.rows.filter (fun r => r.geom.isSome)).map
          (fun r => r.geom.map (reproj src)) := by
  rw [transform, setCol_geoms, setCol_geoms, renameCols]
  cases hc : gdf.crs with
  | none =>
    rw [normalizeCrs]
    dsimp only
    rw [filterGeom, hc]
  | some src =>
    rw [normalizeCrs]
    dsimp only
    rw [filterGeom, hc]
    dsimp only
    rw [List.map_map]
    rfl

/-- The CRS of a transformed frame is always the target system. -/
theorem transform_crs (reproj : String → Geom → Geom) (gdf : Frame) (L : String) :
    (transform reproj gdf L).crs = some CRS_OUT := by
  rw [transform, setCol_crs, setCol_crs, renameCols]
  cases hc : gdf.crs with
  | none => rw [normalizeCrs]; dsimp only; rw [filterGeom, hc]
  | some src => rw [normalizeCrs]; dsimp only; rw [filterGeom, hc]

/-- C3: `transform` drops exactly the records with null geometry: every
record of the result has non-null geometry, and the result has one
record per non-null-geometry input record (all of them retained, in
order, by `transform_geoms`). -/
theorem transform_geometry_invariant (reproj : String → Geom → Geom)
    (gdf : Frame) (L : String) :
    (∀ r ∈ (transform reproj gdf L).rows, r.geom.isSome = true)
    ∧ (transform reproj gdf L).rows.length
        = (gdf.rows.filter (fun r => r.geom.isSome)).length := by
  have hg := transform_geoms reproj gdf L
  constructor
  · intro r hr
    have hmem : r.geom ∈ (transform reproj gdf L).rows.map Row.geom :=
      List.mem_map_of_mem Row.geom hr
    rw [hg] at hmem
    cases hc : gdf.crs with
    | none =>
      rw [hc] at hmem
      dsimp only at hmem
      obtain ⟨r', hr', he⟩ := List.mem_map.mp hmem
      have hf := (List.mem_filter.mp hr').2
      rw [← he]
      exact hf
    | some src =>
      rw [hc] at hmem
      dsimp only at hmem
      obtain ⟨r', hr', he⟩ := List.mem_map.mp hmem
      have hs := (List.mem_filter.mp hr').2
      cases hg' : r'.geom with
      | none => rw [hg'] at hs; cases hs
      | some g =>
        rw [hg'] at he
        rw [← he]
        rfl
  · have := congrArg List.length hg
    rw [List.length_map] at this
    rw [this]
    cases hc : gdf.crs with
    | none => dsimp only; rw [List.length_map]
    | some src => dsimp only; rw [List.length_map]

/-- Concrete witness for C3: a two-record frame with one null geometry
transforms to a single record, which carries a non-null geometry. -/
theorem transform_geometry_invariant_witness :
    (transform (fun _ g => g)
        ⟨none, ["A"], [⟨some [(1, 2)], [Value.num 5]⟩, ⟨none, [Value.num 6]⟩]⟩
        "schools").rows.length = 1
    ∧ (Row.mk (some [(1, 2)])
          [Value.num 5, Value.str "education", Value.str "schools"]).geom.isSome
        = true := by
  refine ⟨(transform_geometry_invariant (fun _ g => g) _ "schools").2.trans (by rfl), ?_⟩
  exact (transform_geometry_invariant (fun _ g => g)
      ⟨none, ["A"], [⟨some [(1, 2)], [Value.num 5]⟩, ⟨none, [Value.num 6]⟩]⟩
      "schools").1
    ⟨some [(1, 2)], [Value.num 5, Value.str "education", Value.str "schools"]⟩
    (by decide)

/-- C4: the reprojection step of `transform`.  The resulting CRS is
always the fixed target `EPSG:4326`; when the input declares no CRS the
target is assigned with no change to any geometry; when a CRS `src` is
declared, every geometry is reprojected from `src` to the target. -/
theorem transform_crs_normalization (reproj : String → Geom → Geom)
    (gdf : Frame) (L : String) :
    (transform reproj gdf L).crs = some CRS_OUT
    ∧ (gdf.crs = none →
        (transform reproj gdf L).rows.map Row.geom =
          (gdf.rows.filter (fun r => r.geom.isSome)).map Row.geom)
    ∧ (∀ src, gdf.crs = some src →
        (transform reproj gdf L).rows.map Row.geom =
          (gdf.rows.filter (fun r => r.geom.isSome)).map
            (fun r => r.geom.map (reproj src))) := by
  refine ⟨transform_crs reproj gdf L, ?_, ?_⟩
  · intro hc
    rw [transform_geoms, hc]
  · intro src hc
    rw [transform_geoms, hc]

/-- Concrete witness for C4, exercising both branches: a frame with no
declared CRS keeps its coordinates unchanged, and a frame declaring
EPSG:3857 has every geometry passed through the reprojection
function. -/
theorem transform_crs_normalization_witness :
    (transform (fun _ g => g.map (fun p => (p.2, p.1)))
        ⟨none, ["A"], [⟨some [(1, 2)], [Value.num 5]⟩]⟩ "schools").crs = some CRS_OUT
    ∧ (transform (fun _ g => g.map (fun p => (p.2, p.1)))
        ⟨none, ["A"], [⟨some [(1, 2)], [Value.num 5]⟩]⟩ "schools").rows.map Row.geom =
        ((⟨none, ["A"], [⟨some [(1, 2)], [Value.num 5]⟩]⟩ : Frame).rows.filter
          (fun r => r.geom.isSome)).map Row.geom
    ∧ (transform (fun _ g => g.map (fun p => (p.2, p.1)))
        ⟨some "EPSG:3857", ["A"], [⟨some [(1, 2)], [Value.num 5]⟩]⟩ "schools").rows.map
          Row.geom =
        ((⟨some "EPSG:3857", ["A"], [⟨some [(1, 2)], [Value.num 5]⟩]⟩ : Frame).rows.filter
          (fun r => r.geom.isSome)).map
          (fun r => r.geom.map ((fun _ g => g.map (fun p => (p.2, p.1))) "EPSG:3857")) := by
  refine ⟨(transform_crs_normalization _ _ "schools").1,
    (transform_crs_normalization _ _ "schools").2.1 rfl,
    (transform_crs_normalization _ _ "schools").2.2 "EPSG:3857" rfl⟩

/-! ## Key normalization: characterization and idempotence -/

/-- Strings with the same character data are equal. -/
theorem string_eq_of_data {s t : String} (h : s.data = t.data) : s = t :=
  congrArg String.mk h

/-- The per-character normalization is idempotent. -/
theorem normalizeChar_normalizeChar (c : Char) :
    normalizeChar (normalizeChar c) = normalizeChar c := by
  by_cases h : c = ' ' ∨ c = '-'
  · have h1 : normalizeChar c = '_' := by rw [normalizeChar, if_pos h]
    rw [h1]
    decide
  · have h1 : normalizeChar c = c.toLower := by rw [normalizeChar, if_neg h]
    push_neg at h
    rw [h1, normalizeChar,
      if_neg (by push_neg; exact ⟨toLower_ne_space c h.1, toLower_ne_hyphen c h.2⟩),
      toLower_toLower]

/-- `normalizeKey` is idempotent: already-normalized labels are fixed
points. -/
theorem normalizeKey_normalizeKey (s : String) :
    normalizeKey (normalizeKey s) = normalizeKey s := by
  apply string_eq_of_data
  rw [normalizeKey_data, normalizeKey_data, List.map_map]
  apply List.map_congr_left
  intro c _
  exact normalizeChar_normalizeChar c

/-- C7: `transform` rewrites every attribute key character-wise — every
space and every hyphen becomes an underscore and every other character
is merely lower-cased, so keys change in no other way (length and
character positions are preserved by the map) — and in particular
`"School Name"` becomes `"school_name"`. -/
theorem transform_key_rewriting :
    (∀ s : String, (normalizeKey s).data =
      s.data.map (fun c => if c = ' ' ∨ c = '-' then '_' else c.toLower))
    ∧ normalizeKey "School Name" = "school_name" := by
  constructor
  · intro s
    rw [normalizeKey_data]
    apply List.map_congr_left
    intro c _
    rw [normalizeChar]
  · decide

/-! ## Column-assignment algebra (for the idempotence claim) -/

/-- Assigning into positions whose label is absent changes nothing. -/
theorem zip_assign_of_not_mem (n : String) (v : Value) :
    ∀ (cols : List String) (vals : List Value), n ∉ cols → cols.length = vals.length →
      (cols.zip vals).map (assignFun n v) = vals := by
  intro cols
  induction cols with
  | nil =>
    intro vals _ h
    cases vals with
    | nil => rfl
    | cons x xs => simp at h
  | cons c cs ih =>
    intro vals hn h
    cases vals with
    | nil => simp at h
    | cons x xs =>
      have hcn : ¬ c = n := fun he => hn (by rw [he]; exact List.mem_cons_self n cs)
      simp only [List.zip_cons_cons, List.map_cons, assignFun, if_neg hcn]
      rw [ih xs (fun hm => hn (List.mem_cons_of_mem c hm)) (by simpa using h)]

/-- A second identical assignment is absorbed (row level). -/
theorem zip_assign_assign (n : String) (v : Value) :
    ∀ (cols : List String) (vals : List Value),
      (cols.zip ((cols.zip vals).map (assignFun n v))).map (assignFun n v) =
        (cols.zip vals).map (assignFun n v) := by
  intro cols
  induction cols with
  | nil => intro vals; rfl
  | cons c cs ih =>
    intro vals
    cases vals with
    | nil => rfl
    | cons x xs =>
      simp only [List.zip_cons_cons, List.map_cons, List.cons.injEq]
      refine ⟨?_, ih xs⟩
      by_cases hc : c = n
      · simp [assignFun, hc]
      · simp [assignFun, hc]

/-- An assignment to a different label preserves the property that all
positions labelled `n` already hold `v` (row level). -/
theorem zip_assign_comm (n m : String) (v w : Value) (hmn : ¬ m = n) :
    ∀ (cols : List String) (vals : List Value),
      (cols.zip vals).map (assignFun n v) = vals →
      (cols.zip ((cols.zip vals).map (assignFun m w))).map (assignFun n v) =
        (cols.zip vals).map (assignFun m w) := by
  intro cols
  induction cols with
  | nil => intro vals _; rfl
  | cons c cs ih =>
    intro vals hp
    cases vals with
    | nil => rfl
    | cons x xs =>
      simp only [List.zip_cons_cons, List.map_cons, List.cons.injEq] at hp ⊢
      refine ⟨?_, ih xs hp.2⟩
      have hp1 := hp.1
      by_cases hcn : c = n
      · have hcm : ¬ c = m := by rw [hcn]; exact fun he => hmn he.symm
        simp only [assignFun, if_pos hcn, if_neg hcm] at hp1 ⊢
        simp [hp1, if_pos hcn]
      · simp [assignFun, hcn]

/-- The frame-level invariant behind idempotent tagging: label `n`
exists and every position labelled `n` already holds `v` in every
row. -/
def ColAssigned (f : Frame) (n : String) (v : Value) : Prop :=
  n ∈ f.columns ∧ ∀ r ∈ f.rows, (f.columns.zip r.vals).map (assignFun n v) = r.vals

/-! ## Well-formedness preservation -/

/-- The geometry filter preserves rectangularity. -/
theorem filterGeom_WF {f : Frame} (h : f.WF) : (filterGeom f).WF := by
  intro r hr
  exact h r (List.mem_of_mem_filter hr)

/-- CRS normalization preserves rectangularity. -/
theorem normalizeCrs_WF (reproj : String → Geom → Geom) (f : Frame) (h : f.WF) :
    (normalizeCrs reproj f).WF := by
  cases hc : f.crs with
  | none =>
    intro r hr
    simp only [normalizeCrs, hc] at hr ⊢
    exact h r hr
  | some src =>
    intro r hr
    simp only [normalizeCrs, hc] at hr ⊢
    obtain ⟨r', hr', rfl⟩ := List.mem_map.mp hr
    exact h r' hr'

/-- Column renaming preserves rectangularity. -/
theorem renameCols_WF {f : Frame} (h : f.WF) : (renameCols f).WF := by
  intro r hr
  simp only [renameCols, List.length_map] at hr ⊢
  exact h r hr

/-- Column assignment preserves rectangularity. -/
theorem setCol_WF (n : String) (v : Value) {f : Frame} (h : f.WF) :
    (setCol n v f).WF := by
  rw [setCol]
  split
  · intro r hr
    obtain ⟨r', hr', rfl⟩ := List.mem_map.mp hr
    simp [List.length_zip, h r' hr']
  · intro r hr
    obtain ⟨r', hr', rfl⟩ := List.mem_map.mp hr
    simp [h r' hr']

/-! ## No-op lemmas for a second transform pass -/

/-- Filtering a frame whose geometries are all non-null is a no-op. -/
theorem filterGeom_noop {f : Frame} (h : ∀ r ∈ f.rows, r.geom.isSome = true) :
    filterGeom f = f := by
  rw [filterGeom, List.filter_eq_self.mpr h]

/-- Normalizing the CRS of a frame already in the target system is a
no-op when reprojection from the target to itself is the identity. -/
theorem normalizeCrs_noop (reproj : String → Geom → Geom) (f : Frame)
    (hc : f.crs = some CRS_OUT) (hrp : ∀ g, reproj CRS_OUT g = g) :
    normalizeCrs reproj f = f := by
  obtain ⟨crs, cols, rows⟩ := f
  simp only at hc
  subst hc
  simp only [normalizeCrs]
  congr 1
  conv_rhs => rw [← List.map_id rows]
  apply List.map_congr_left
  intro r _
  have hg : r.geom.map (reproj CRS_OUT) = r.geom := by
    cases r.geom with
    | none => rfl
    | some g => simp [hrp g]
  rw [hg]
  rfl

/-- Renaming columns whose labels are all fixed points of
`normalizeKey` is a no-op. -/
theorem renameCols_noop (f : Frame) (h : ∀ c ∈ f.columns, normalizeKey c = c) :
    renameCols f = f := by
  rw [renameCols]
  have : f.columns.map normalizeKey = f.columns := by
    conv_rhs => rw [← List.map_id f.columns]
    exact List.map_congr_left h
  rw [this]

/-- Assigning a column that already holds the value everywhere is a
no-op. -/
theorem setCol_noop {f : Frame} {n : String} {v : Value} (h : ColAssigned f n v) :
    setCol n v f = f := by
  rw [setCol, if_pos h.1]
  have hrows : f.rows.map (fun r =>
      { r with vals := (f.columns.zip r.vals).map (assignFun n v) }) = f.rows := by
    conv_rhs => rw [← List.map_id f.rows]
    apply List.map_congr_left
    intro r hr
    rw [h.2 r hr]
    rfl
  rw [hrows]

/-- After `setCol n v`, label `n` holds `v` everywhere. -/
theorem ColAssigned_setCol_self (n : String) (v : Value) {f : Frame} (hwf : f.WF) :
    ColAssigned (setCol n v f) n v := by
  rw [setCol]
  split
  next hmem =>
    refine ⟨hmem, ?_⟩
    intro r hr
    obtain ⟨r', hr', rfl⟩ := List.mem_map.mp hr
    exact zip_assign_assign n v f.columns r'.vals
  next hmem =>
    refine ⟨List.mem_append.mpr (Or.inr (List.mem_singleton.mpr rfl)), ?_⟩
    intro r hr
    obtain ⟨r', hr', rfl⟩ := List.mem_map.mp hr
    show ((f.columns ++ [n]).zip (r'.vals ++ [v])).map (assignFun n v) = r'.vals ++ [v]
    rw [List.zip_append (hwf r' hr').symm, List.map_append,
      zip_assign_of_not_mem n v f.columns r'.vals hmem (hwf r' hr').symm]
    simp [assignFun]

/-- Assigning a different label preserves `ColAssigned`. -/
theorem ColAssigned_setCol_other (m : String) (w : Value) {f : Frame} {n : String}
    {v : Value} (hmn : ¬ m = n) (hwf : f.WF) (h : ColAssigned f n v) :
    ColAssigned (setCol m w f) n v := by
  rw [setCol]
  split
  next hmem =>
    refine ⟨h.1, ?_⟩
    intro r hr
    obtain ⟨r', hr', rfl⟩ := List.mem_map.mp hr
    exact zip_assign_comm n m v w hmn f.columns r'.vals (h.2 r' hr')
  next hmem =>
    refine ⟨List.mem_append.mpr (Or.inl h.1), ?_⟩
    intro r hr
    obtain ⟨r', hr', rfl⟩ := List.mem_map.mp hr
    show ((f.columns ++ [m]).zip (r'.vals ++ [w])).map (assignFun n v) = r'.vals ++ [w]
    rw [List.zip_append (hwf r' hr').symm, List.map_append, h.2 r' hr']
    simp [assignFun, hmn]

/-- Columns after `setCol` come from the frame or are the assigned
label. -/
theorem setCol_columns_subset (n : String) (v : Value) (f : Frame) :
    ∀ c ∈ (setCol n v f).columns, c ∈ f.columns ∨ c = n := by
  rw [setCol]
  split
  · intro c hc
    exact Or.inl hc
  · intro c hc
    rcases List.mem_append.mp hc with h | h
    · exact Or.inl h
    · exact Or.inr (List.mem_singleton.mp h)

/-- Every column label of a transformed frame is a fixed point of
`normalizeKey`. -/
theorem transform_columns_fixed (reproj : String → Geom → Geom) (gdf : Frame)
    (L : String) : ∀ c ∈ (transform reproj gdf L).columns, normalizeKey c = c := by
  intro c hc
  rcases setCol_columns_subset _ _ _ c hc with h | h
  · rcases setCol_columns_subset _ _ _ c h with h2 | h2
    · rw [renameCols] at h2
      obtain ⟨x, _, he⟩ := List.mem_map.mp h2
      rw [← he]
      exact normalizeKey_normalizeKey x
    · rw [h2]
      decide
  · rw [h]
    decide

/-- C8: `transform` is idempotent.  For any rectangular input frame and
any reprojection that is the identity from the target CRS to itself
(geopandas `to_crs` from EPSG:4326 to EPSG:4326 changes no coordinate),
a second application of `transform` returns the first result
unchanged: the target CRS, the normalized key casing and the injected
`facility_category`/`facility_type` fields are all fixed points. -/
theorem transform_idempotent (reproj : String → Geom → Geom)
    (hrp : ∀ g, reproj CRS_OUT g = g) (gdf : Frame) (hwf : gdf.WF) (L : String) :
    transform reproj (transform reproj gdf L) L = transform reproj gdf L := by
  have hBwf : (renameCols (normalizeCrs reproj (filterGeom gdf))).WF :=
    renameCols_WF (normalizeCrs_WF reproj _ (filterGeom_WF hwf))
  have hXwf : (setCol "facility_category" FACILITY_CATEGORY
      (renameCols (normalizeCrs reproj (filterGeom gdf)))).WF :=
    setCol_WF _ _ hBwf
  have h1 : filterGeom (transform reproj gdf L) = transform reproj gdf L :=
    filterGeom_noop (transform_geometry_invariant reproj gdf L).1
  have h2 : normalizeCrs reproj (transform reproj gdf L) = transform reproj gdf L :=
    normalizeCrs_noop reproj _ (transform_crs reproj gdf L) hrp
  have h3 : renameCols (transform reproj gdf L) = transform reproj gdf L :=
    renameCols_noop _ (transform_columns_fixed reproj gdf L)
  have hca2 : ColAssigned (transform reproj gdf L) "facility_type" (Value.str L) :=
    ColAssigned_setCol_self _ _ hXwf
  have hca1 : ColAssigned (transform reproj gdf L) "facility_category"
      FACILITY_CATEGORY :=
    ColAssigned_setCol_other _ _ (by decide) hXwf (ColAssigned_setCol_self _ _ hBwf)
  calc transform reproj (transform reproj gdf L) L
      = setCol "facility_type" (Value.str L)
          (setCol "facility_category" FACILITY_CATEGORY (transform reproj gdf L)) := by
        rw [transform, h1, h2, h3]
    _ = transform reproj gdf L := by
        rw [setCol_noop hca1, setCol_noop hca2]

/-- Concrete witness for C8: a second transform of a small already
transformed frame is the identity (reprojection taken as the identity
map, as EPSG:4326 → EPSG:4326 is). -/
theorem transform_idempotent_witness :
    transform (fun _ g => g)
        (transform (fun _ g => g)
          ⟨some "EPSG:3857", ["School Name"], [⟨some [(1, 2)], [Value.num 5]⟩]⟩
          "schools")
        "schools" =
      transform (fun _ g => g)
        ⟨some "EPSG:3857", ["School Name"], [⟨some [(1, 2)], [Value.num 5]⟩]⟩
        "schools" :=
  transform_idempotent (fun _ g => g) (fun g => rfl)
    ⟨some "EPSG:3857", ["School Name"], [⟨some [(1, 2)], [Value.num 5]⟩]⟩
    (by decide) "schools"

/-! ## Column behavior under renaming collisions (C10) -/

/-- Taking at most the first list's length from an append stays in the
first list. -/
theorem take_append_le {α : Type} (l₁ l₂ : List α) (k : Nat) (h : k ≤ l₁.length) :
    (l₁ ++ l₂).take k = l₁.take k := by
  induction l₁ generalizing k with
  | nil =>
    have : k = 0 := by simpa using h
    rw [this]
    rfl
  | cons a l ih =>
    cases k with
    | zero => rfl
    | succ k =>
      simp only [List.cons_append, List.take_succ_cons]
      rw [ih k (by simpa using h)]

/-- `setCol` never disturbs the first `k` column labels. -/
theorem setCol_columns_take (n : String) (v : Value) (f : Frame) (k : Nat)
    (hk : k ≤ f.columns.length) :
    ((setCol n v f).columns).take k = f.columns.take k := by
  rw [setCol]
  split
  · rfl
  · exact take_append_le f.columns [n] k hk

/-- `setCol` never shortens the column list. -/
theorem setCol_columns_le (n : String) (v : Value) (f : Frame) :
    f.columns.length ≤ (setCol n v f).columns.length := by
  rw [setCol]
  split
  · exact Nat.le_refl _
  · simp

/-- CRS normalization does not touch the columns. -/
theorem normalizeCrs_columns (reproj : String → Geom → Geom) (f : Frame) :
    (normalizeCrs reproj f).columns = f.columns := by
  cases hc : f.crs <;> simp [normalizeCrs, hc]

/-- C10: when two distinct source keys normalize to the same label,
`transform` keeps both columns.  In general the first
`gdf.columns.length` output columns are exactly `gdf.columns.map
normalizeKey` — a multiplicity-preserving relabeling with no error and
no first-write-wins collapse (and, the model being a pure function, a
deterministic one).  Concretely, `"School Name"` and `"school-name"`
both become `"school_name"` and both value columns survive with their
distinct values. -/
theorem transform_duplicate_keys (reproj : String → Geom → Geom) (gdf : Frame)
    (L : String) :
    ((transform reproj gdf L).columns).take gdf.columns.length =
      gdf.columns.map normalizeKey
    ∧ transform (fun _ g => g)
        ⟨none, ["School Name", "school-name"],
          [⟨some [(1, 2)], [Value.num 1, Value.num 2]⟩]⟩ "schools" =
      ⟨some CRS_OUT, ["school_name", "school_name", "facility_category", "facility_type"],
        [⟨some [(1, 2)],
          [Value.num 1, Value.num 2, Value.str "education", Value.str "schools"]⟩]⟩ := by
  constructor
  · have hBcols : (renameCols (normalizeCrs reproj (filterGeom gdf))).columns =
        gdf.columns.map normalizeKey := by
      rw [renameCols, normalizeCrs_columns]
      rfl
    have hlen : gdf.columns.length =
        (renameCols (normalizeCrs reproj (filterGeom gdf))).columns.length := by
      rw [hBcols, List.length_map]
    rw [transform, setCol_columns_take _ _ _ _ (by
        refine Nat.le_trans (Nat.le_of_eq hlen) (setCol_columns_le _ _ _)),
      setCol_columns_take _ _ _ _ (Nat.le_of_eq hlen), hBcols, ← List.length_map
        gdf.columns normalizeKey, List.take_length]
  · decide

/-! ## Merge (`main`, lines 146-149)

`pd.concat(all_layers.values(), ignore_index=True)` concatenates the
frames' rows in input order under the union of their columns (order of
first appearance), filling fields missing from a record's source frame
with nulls; `gpd.GeoDataFrame(..., crs=CRS_OUT)` stamps the target
CRS. -/

/-- Union of column lists, in order of first appearance (the column
index `pd.concat` produces for frames with differing columns). -/
def unionCols (ls : List (List String)) : List String :=
  ls.foldl (fun acc cols => acc ++ cols.filter (fun c => !(decide (c ∈ acc)))) []

/-- The value a record holds at column `c`: the value at the first
position labelled `c`, or null when the record's frame has no such
column. -/
def rowVal (cols : List String) (vals : List Value) (c : String) : Value :=
  ((cols.findIdx? (fun x => x == c)).map (fun i => vals.getD i Value.null)).getD
    Value.null

/-- Reindexing of one record from its source columns to the combined
columns: each combined column takes the record's value there, null when
absent (`pd.concat`'s outer join). -/
def alignRow (target src : List String) (r : Row) : Row :=
  ⟨r.geom, target.map (fun c => rowVal src r.vals c)⟩

/-- The combined dataset of `main`:
`gpd.GeoDataFrame(pd.concat(all_layers.values(), ignore_index=True),
crs=CRS_OUT)`. -/
def combinedFrame (ls : List Frame) : Frame :=
  let cols := unionCols (ls.map Frame.columns)
  ⟨some CRS_OUT, cols, ls.flatMap (fun f => f.rows.map (alignRow cols f.columns))⟩

/-- Membership in the union of column lists. -/
theorem mem_unionCols_of_mem (c : String) :
    ∀ (ls : List (List String)) (acc : List String),
      (c ∈ acc ∨ ∃ cols ∈ ls, c ∈ cols) →
      c ∈ ls.foldl (fun acc cols =>
        acc ++ cols.filter (fun x => !(decide (x ∈ acc)))) acc := by
  intro ls
  induction ls with
  | nil =>
    intro acc h
    rcases h with h | ⟨cols, hcols, _⟩
    · exact h
    · simp at hcols
  | cons cs rest ih =>
    intro acc h
    simp only [List.foldl_cons]
    apply ih
    rcases h with h | ⟨cols, hcols, hcc⟩
    · exact Or.inl (List.mem_append.mpr (Or.inl h))
    · rcases List.mem_cons.mp hcols with he | hmem
      · subst he
        by_cases ha : c ∈ acc
        · exact Or.inl (List.mem_append.mpr (Or.inl ha))
        · refine Or.inl (List.mem_append.mpr (Or.inr ?_))
          exact List.mem_filter.mpr ⟨hcc, by simp [ha]⟩
      · exact Or.inr ⟨cols, hmem, hcc⟩

/-- Looking a column up in a row built by mapping over the very same
column list recovers the mapped value at that column. -/
theorem rowVal_map (target : List String) (g : String → Value) (c : String)
    (hc : c ∈ target) : rowVal target (target.map g) c = g c := by
  have hi : target.findIdx? (fun x => x == c) =
      some (target.findIdx (fun x => x == c)) :=
    List.findIdx?_eq_some_of_exists ⟨c, hc, by simp⟩
  obtain ⟨hlen, hp, _⟩ := List.findIdx?_eq_some_iff_getElem.mp hi
  rw [rowVal, hi]
  have hceq : target[target.findIdx (fun x => x == c)] = c := by simpa using hp
  simp only [Option.map_some', Option.getD_some]
  rw [List.getD_eq_getElem _ _ (by simpa using hlen), List.getElem_map, hceq]

/-- Looking up a column absent from a record's frame yields null. -/
theorem rowVal_of_not_mem (cols : List String) (vals : List Value) (c : String)
    (hc : c ∉ cols) : rowVal cols vals c = Value.null := by
  have hn : cols.findIdx? (fun x => x == c) = none := by
    rw [List.findIdx?_eq_none_iff]
    intro x hx
    simp only [beq_eq_false_iff_ne, ne_eq]
    intro he
    exact hc (he ▸ hx)
  rw [rowVal, hn]
  rfl

/-- C2: merging an ordered sequence of collections yields a combined
collection whose record count is the sum of the input counts, and whose
records are exactly the concatenation of the inputs in their given
order (layer order, then intra-layer order) — each record reindexed to
the combined columns with its geometry untouched. -/
theorem merge_count_and_order (ls : List Frame) :
    (combinedFrame ls).rows.length = (ls.map (fun f => f.rows.length)).sum
    ∧ (combinedFrame ls).rows =
        ls.flatMap (fun f =>
          f.rows.map (alignRow (unionCols (ls.map Frame.columns)) f.columns))
    ∧ ∀ f ∈ ls, ∀ r ∈ f.rows,
        (alignRow (unionCols (ls.map Frame.columns)) f.columns r).geom = r.geom := by
  refine ⟨?_, rfl, ?_⟩
  · show (ls.flatMap (fun f =>
        f.rows.map (alignRow (unionCols (ls.map Frame.columns)) f.columns))).length = _
    rw [List.length_flatMap]
    congr 1
    apply List.map_congr_left
    intro f _
    simp [Function.comp]
  · intro f _ r _
    rfl

/-- Concrete witness for C2: merging a 2-record and a 1-record
collection gives 3 records, and alignment preserves a concrete
record's geometry. -/
theorem merge_count_and_order_witness :
    (combinedFrame
      [⟨some CRS_OUT, ["a"], [⟨some [(0, 0)], [Value.num 1]⟩, ⟨none, [Value.num 2]⟩]⟩,
       ⟨some CRS_OUT, ["b"], [⟨some [(1, 1)], [Value.num 3]⟩]⟩]).rows.length = 3
    ∧ (alignRow
        (unionCols (([
          ⟨some CRS_OUT, ["a"], [⟨some [(0, 0)], [Value.num 1]⟩, ⟨none, [Value.num 2]⟩]⟩,
          ⟨some CRS_OUT, ["b"], [⟨some [(1, 1)], [Value.num 3]⟩]⟩] : List Frame).map
            Frame.columns))
        ["b"] ⟨some [(1, 1)], [Value.num 3]⟩).geom = some [(1, 1)] := by
  refine ⟨(merge_count_and_order _).1.trans (by rfl), ?_⟩
  exact (merge_count_and_order
      [⟨some CRS_OUT, ["a"], [⟨some [(0, 0)], [Value.num 1]⟩, ⟨none, [Value.num 2]⟩]⟩,
       ⟨some CRS_OUT, ["b"], [⟨some [(1, 1)], [Value.num 3]⟩]⟩]).2.2
    ⟨some CRS_OUT, ["b"], [⟨some [(1, 1)], [Value.num 3]⟩]⟩ (by decide)
    ⟨some [(1, 1)], [Value.num 3]⟩ (by decide)

/-- C6 counterexample: the merge of `main` is `pd.concat`, a total
operation with no failure path — the source defines no
`SchemaMismatchError` and raises nothing at merge time.  Even for two
collections with completely disjoint attribute keysets (as
irreconcilable as keysets get), the merge succeeds and returns the
union-of-columns, null-filled combined frame. -/
theorem merge_never_fails_counterexample :
    combinedFrame
      [⟨some CRS_OUT, ["a"], [⟨some [(0, 0)], [Value.num 1]⟩]⟩,
       ⟨some CRS_OUT, ["b"], [⟨some [(1, 1)], [Value.num 2]⟩]⟩] =
    ⟨some CRS_OUT, ["a", "b"],
      [⟨some [(0, 0)], [Value.num 1, Value.null]⟩,
       ⟨some [(1, 1)], [Value.null, Value.num 2]⟩]⟩ := by
  decide

/-- C6 (amended): the merge never fails — there is no schema check and
no `SchemaMismatchError` in the code; differing attribute keysets are
reconciled deterministically (the model is a pure function) by
union-of-columns: every input column appears in the combined columns,
each record keeps its own values at its own columns, and columns
missing from a record's source collection are filled with null. -/
theorem merge_schema_union_null_fill (ls : List Frame) :
    (∀ f ∈ ls, ∀ c ∈ f.columns, c ∈ (combinedFrame ls).columns)
    ∧ (∀ f ∈ ls, ∀ r ∈ f.rows, ∀ c ∈ f.columns,
        rowVal (combinedFrame ls).columns
          (alignRow (combinedFrame ls).columns f.columns r).vals c
          = rowVal f.columns r.vals c)
    ∧ (∀ f ∈ ls, ∀ r ∈ f.rows, ∀ c, c ∉ f.columns →
        rowVal (combinedFrame ls).columns
          (alignRow (combinedFrame ls).columns f.columns r).vals c
          = Value.null) := by
  have hmem : ∀ f ∈ ls, ∀ c ∈ f.columns, c ∈ (combinedFrame ls).columns := by
    intro f hf c hc
    exact mem_unionCols_of_mem c (ls.map Frame.columns) []
      (Or.inr ⟨f.columns, List.mem_map_of_mem Frame.columns hf, hc⟩)
  refine ⟨hmem, ?_, ?_⟩
  · intro f hf r _ c hc
    exact rowVal_map _ (fun c => rowVal f.columns r.vals c) c (hmem f hf c hc)
  · intro f hf r _ c hc
    by_cases hu : c ∈ (combinedFrame ls).columns
    · have h1 := rowVal_map (combinedFrame ls).columns
        (fun c => rowVal f.columns r.vals c) c hu
      have h2 := rowVal_of_not_mem f.columns r.vals c hc
      exact h1.trans h2
    · exact rowVal_of_not_mem _ _ c hu

/-- Concrete witness for C6's amended statement: with disjoint keysets
`["a"]` and `["b"]`, column `"a"` survives into the union, the first
record keeps its value at `"a"`, and is null-filled at `"b"`. -/
theorem merge_schema_union_null_fill_witness :
    ("a" ∈ (combinedFrame
        [⟨some CRS_OUT, ["a"], [⟨some [(0, 0)], [Value.num 1]⟩]⟩,
         ⟨some CRS_OUT, ["b"], [⟨some [(1, 1)], [Value.num 2]⟩]⟩]).columns)
    ∧ rowVal (combinedFrame
        [⟨some CRS_OUT, ["a"], [⟨some [(0, 0)], [Value.num 1]⟩]⟩,
         ⟨some CRS_OUT, ["b"], [⟨some [(1, 1)], [Value.num 2]⟩]⟩]).columns
        (alignRow (combinedFrame
          [⟨some CRS_OUT, ["a"], [⟨some [(0, 0)], [Value.num 1]⟩]⟩,
           ⟨some CRS_OUT, ["b"], [⟨some [(1, 1)], [Value.num 2]⟩]⟩]).columns
          ["a"] ⟨some [(0, 0)], [Value.num 1]⟩).vals "a"
        = rowVal ["a"] [Value.num 1] "a"
    ∧ rowVal (combinedFrame
        [⟨some CRS_OUT, ["a"], [⟨some [(0, 0)], [Value.num 1]⟩]⟩,
         ⟨some CRS_OUT, ["b"], [⟨some [(1, 1)], [Value.num 2]⟩]⟩]).columns
        (alignRow (combinedFrame
          [⟨some CRS_OUT, ["a"], [⟨some [(0, 0)], [Value.num 1]⟩]⟩,
           ⟨some CRS_OUT, ["b"], [⟨some [(1, 1)], [Value.num 2]⟩]⟩]).columns
          ["a"] ⟨some [(0, 0)], [Value.num 1]⟩).vals "b"
        = Value.null := by
  refine ⟨?_, ?_, ?_⟩
  · exact (merge_schema_union_null_fill _).1
      ⟨some CRS_OUT, ["a"], [⟨some [(0, 0)], [Value.num 1]⟩]⟩ (by decide)
      "a" (by decide)
  · exact (merge_schema_union_null_fill _).2.1
      ⟨some CRS_OUT, ["a"], [⟨some [(0, 0)], [Value.num 1]⟩]⟩ (by decide)
      ⟨some [(0, 0)], [Value.num 1]⟩ (by decide) "a" (by decide)
  · exact (merge_schema_union_null_fill _).2.2
      ⟨some CRS_OUT, ["a"], [⟨some [(0, 0)], [Value.num 1]⟩]⟩ (by decide)
      ⟨some [(0, 0)], [Value.num 1]⟩ (by decide) "b" (by decide)

/-! ## Load (`load_outputs`, lines 118-131) and the filesystem model

The destination directory is created (idempotently, `exist_ok=True`) at
line 31, before any pipeline stage runs.  For each named collection
`load_outputs` writes `OUTPUT_DIR/{name}.geojson` (GeoJSON driver,
overwriting any existing file) and writes the collection as layer
`name` into the shared container `OUTPUT_DIR/education.gpkg` (GPKG
driver: replaces a same-named layer, keeps the others). -/

/-- Contents a written file can hold: a single-layer GeoJSON document
or a multi-layer GeoPackage container. -/
inductive FileContent where
  | geojson : Frame → FileContent
  | gpkg : List (String × Frame) → FileContent
deriving DecidableEq

/-- A filesystem: existing directories and files (path ↦ content). -/
structure FS where
  dirs : List String
  files : List (String × FileContent)
deriving DecidableEq

/-- Look a path up in the filesystem. -/
def getFile (fs : FS) (path : String) : Option FileContent :=
  (fs.files.find? (fun p => p.1 == path)).map Prod.snd

/-- Write a file, silently replacing any existing file at the path. -/
def setFile (path : String) (content : FileContent) (fs : FS) : FS :=
  { fs with files := (path, content) :: fs.files.filter (fun p => !(p.1 == path)) }

/-- `Path.mkdir(exist_ok=True)`: create the directory if absent, do
nothing if it already exists. -/
def mkdirIdem (d : String) (fs : FS) : FS :=
  if d ∈ fs.dirs then fs else { fs with dirs := d :: fs.dirs }

/-- Path of the per-collection GeoJSON artifact,
`OUTPUT_DIR / f"{name}.geojson"`. -/
def geojsonPath (name : String) : String :=
  OUTPUT_DIR ++ "/" ++ name ++ ".geojson"

/-- Path of the shared GeoPackage container,
`OUTPUT_DIR / "education.gpkg"`. -/
def gpkgPath : String :=
  OUTPUT_DIR ++ "/education.gpkg"

/-- The layer list currently stored in the shared GeoPackage (empty
when the file is absent or not a GeoPackage). -/
def gpkgLayersOf (fs : FS) : List (String × Frame) :=
  match getFile fs gpkgPath with
  | some (FileContent.gpkg ls) => ls
  | _ => []

/-- Write one collection as a named layer of the shared GeoPackage:
replaces a layer of the same name, keeps the others. -/
def writeGpkgLayer (layer : String) (gdf : Frame) (fs : FS) : FS :=
  setFile gpkgPath
    (FileContent.gpkg
      ((layer, gdf) :: (gpkgLayersOf fs).filter (fun p => !(p.1 == layer)))) fs

/-- The body of `load_outputs(gdfs)`: for each named collection, write
its standalone GeoJSON file and then its layer in the shared
GeoPackage. -/
def load_outputs (gdfs : List (String × Frame)) (fs : FS) : FS :=
  gdfs.foldl (fun fs ng =>
    writeGpkgLayer ng.1 ng.2
      (setFile (geojsonPath ng.1) (FileContent.geojson ng.2) fs)) fs

/-- The layer a filesystem's shared GeoPackage holds under a name. -/
def gpkgLayerOf (fs : FS) (layer : String) : Option Frame :=
  ((gpkgLayersOf fs).find? (fun p => p.1 == layer)).map Prod.snd

/-! ## Filesystem lemmas -/

/-- Reading back the path just written. -/
theorem getFile_setFile_same (path : String) (content : FileContent) (fs : FS) :
    getFile (setFile path content fs) path = some content := by
  rw [getFile, setFile]
  simp [List.find?]

/-- Finding by one key is unaffected by removing entries of a different
key. -/
theorem find?_filter_ne {β : Type} (q path : String) (h : ¬ q = path) :
    ∀ ps : List (String × β),
      List.find? (fun p => p.1 == q) (ps.filter (fun p => !(p.1 == path))) =
        List.find? (fun p => p.1 == q) ps := by
  intro ps
  induction ps with
  | nil => rfl
  | cons p ps ih =>
    by_cases hp : p.1 = path
    · have h1 : (!(p.1 == path)) = false := by simp [hp]
      have h2 : ¬ ((fun p : String × β => p.1 == q) p = true) := by
        simp only [beq_iff_eq]
        intro he
        exact h (he.symm.trans hp)
      have e1 : List.find? (fun p : String × β => p.1 == q) (p :: ps) =
          List.find? (fun p => p.1 == q) ps := by
        apply List.find?_cons_of_neg
        exact h2
      rw [List.filter_cons, h1]
      simp only [Bool.false_eq_true, if_false]
      rw [ih, e1]
    · have h1 : (!(p.1 == path)) = true := by simp [hp]
      rw [List.filter_cons, h1]
      simp only [if_true]
      by_cases hq : ((fun p : String × β => p.1 == q) p = true)
      · have e1 : List.find? (fun p : String × β => p.1 == q)
            (p :: ps.filter (fun p => !(p.1 == path))) = some p := by
          apply List.find?_cons_of_pos
          exact hq
        have e2 : List.find? (fun p : String × β => p.1 == q) (p :: ps) =
            some p := by
          apply List.find?_cons_of_pos
          exact hq
        rw [e1, e2]
      · have e1 : List.find? (fun p : String × β => p.1 == q)
            (p :: ps.filter (fun p => !(p.1 == path))) =
            List.find? (fun p => p.1 == q) (ps.filter (fun p => !(p.1 == path))) := by
          apply List.find?_cons_of_neg
          exact hq
        have e2 : List.find? (fun p : String × β => p.1 == q) (p :: ps) =
            List.find? (fun p => p.1 == q) ps := by
          apply List.find?_cons_of_neg
          exact hq
        rw [e1, e2, ih]

/-- Writing one path leaves every other path's content unchanged. -/
theorem getFile_setFile_other (path q : String) (content : FileContent) (fs : FS)
    (h : ¬ q = path) : getFile (setFile path content fs) q = getFile fs q := by
  rw [getFile, setFile, getFile]
  simp only
  have hne : ¬ ((fun p : String × FileContent => p.1 == q) (path, content) = true) := by
    simp only [beq_iff_eq]
    exact fun he => h he.symm
  have e1 : List.find? (fun p : String × FileContent => p.1 == q)
      ((path, content) :: fs.files.filter (fun p => !(p.1 == path))) =
      List.find? (fun p => p.1 == q) (fs.files.filter (fun p => !(p.1 == path))) := by
    apply List.find?_cons_of_neg
    exact hne
  rw [e1, find?_filter_ne q path h fs.files]

/-- A per-collection GeoJSON path is never the GeoPackage path (their
last characters differ). -/
theorem geojsonPath_ne_gpkgPath (name : String) : ¬ geojsonPath name = gpkgPath := by
  intro h
  have hd := congrArg (fun s => s.data.getLast?) h
  simp only [geojsonPath, gpkgPath, String.data_append, List.getLast?_append] at hd
  have h1 : (String.data ".geojson").getLast? = some 'n' := rfl
  have h2 : (String.data "/education.gpkg").getLast? = some 'g' := rfl
  rw [h1, h2, Option.or_some, Option.or_some] at hd
  cases hd

/-- `setFile` does not change the directory set. -/
theorem setFile_dirs (path : String) (content : FileContent) (fs : FS) :
    (setFile path content fs).dirs = fs.dirs := rfl

/-- `writeGpkgLayer` does not change the directory set. -/
theorem writeGpkgLayer_dirs (layer : String) (gdf : Frame) (fs : FS) :
    (writeGpkgLayer layer gdf fs).dirs = fs.dirs := rfl

/-- `load_outputs` does not change the directory set. -/
theorem load_outputs_dirs (gdfs : List (String × Frame)) (fs : FS) :
    (load_outputs gdfs fs).dirs = fs.dirs := by
  rw [load_outputs]
  induction gdfs generalizing fs with
  | nil => rfl
  | cons ng rest ih =>
    rw [List.foldl_cons]
    rw [ih]
    rfl

/-- The GeoJSON path determines the collection name. -/
theorem geojsonPath_inj (m n : String) (h : geojsonPath m = geojsonPath n) : m = n := by
  have hd := congrArg String.data h
  simp only [geojsonPath, String.data_append] at hd
  exact string_eq_of_data
    (List.append_cancel_left (List.append_cancel_right hd))

/-- Reading another collection's GeoJSON file is unaffected by one
load step. -/
theorem getFile_loadStep_other (m n : String) (gm : Frame) (fs : FS) (h : ¬ n = m) :
    getFile (writeGpkgLayer m gm (setFile (geojsonPath m) (FileContent.geojson gm) fs))
      (geojsonPath n) = getFile fs (geojsonPath n) := by
  rw [writeGpkgLayer]
  rw [getFile_setFile_other _ _ _ _ (geojsonPath_ne_gpkgPath n),
    getFile_setFile_other _ _ _ _ (fun he => h (geojsonPath_inj n m he))]

/-- Writing a GeoJSON file does not disturb the GeoPackage layers. -/
theorem gpkgLayersOf_setFile_geojson (x : String) (c : FileContent) (fs : FS) :
    gpkgLayersOf (setFile (geojsonPath x) c fs) = gpkgLayersOf fs := by
  rw [gpkgLayersOf, gpkgLayersOf,
    getFile_setFile_other _ _ _ _ (fun he => geojsonPath_ne_gpkgPath x he.symm)]

/-- The layer list after writing one layer. -/
theorem gpkgLayersOf_writeGpkgLayer (m : String) (gm : Frame) (fs : FS) :
    gpkgLayersOf (writeGpkgLayer m gm fs) =
      (m, gm) :: (gpkgLayersOf fs).filter (fun p => !(p.1 == m)) := by
  rw [writeGpkgLayer, gpkgLayersOf, getFile_setFile_same]

/-- The shared GeoPackage's layer of one name is unaffected by a load
step for a different name. -/
theorem gpkgLayerOf_loadStep_other (m n : String) (gm : Frame) (fs : FS)
    (h : ¬ n = m) :
    gpkgLayerOf (writeGpkgLayer m gm (setFile (geojsonPath m) (FileContent.geojson gm) fs)) n
      = gpkgLayerOf fs n := by
  rw [gpkgLayerOf, gpkgLayerOf, gpkgLayersOf_writeGpkgLayer,
    gpkgLayersOf_setFile_geojson]
  have hne : ¬ ((fun p : String × Frame => p.1 == n) (m, gm) = true) := by
    simp only [beq_iff_eq]
    exact fun he => h he.symm
  have e1 : List.find? (fun p : String × Frame => p.1 == n)
      ((m, gm) :: (gpkgLayersOf fs).filter (fun p => !(p.1 == m))) =
      List.find? (fun p => p.1 == n) ((gpkgLayersOf fs).filter (fun p => !(p.1 == m))) := by
    apply List.find?_cons_of_neg
    exact hne
  rw [e1, find?_filter_ne n m h (gpkgLayersOf fs)]

/-- A load step installs its own GeoJSON file and GeoPackage layer. -/
theorem loadStep_own (m : String) (gm : Frame) (fs : FS) :
    getFile (writeGpkgLayer m gm (setFile (geojsonPath m) (FileContent.geojson gm) fs))
      (geojsonPath m) = some (FileContent.geojson gm)
    ∧ gpkgLayerOf
        (writeGpkgLayer m gm (setFile (geojsonPath m) (FileContent.geojson gm) fs)) m
      = some gm := by
  constructor
  · rw [writeGpkgLayer,
      getFile_setFile_other _ _ _ _ (geojsonPath_ne_gpkgPath m),
      getFile_setFile_same]
  · rw [gpkgLayerOf, gpkgLayersOf_writeGpkgLayer]
    have e1 : List.find? (fun p : String × Frame => p.1 == m)
        ((m, gm) :: (gpkgLayersOf (setFile (geojsonPath m) (FileContent.geojson gm) fs)).filter
          (fun p => !(p.1 == m))) = some (m, gm) := by
      apply List.find?_cons_of_pos
      simp
    rw [e1]
    rfl

/-- One step of `load_outputs`'s loop. -/
theorem load_outputs_cons (ng : String × Frame) (rest : List (String × Frame)) (fs : FS) :
    load_outputs (ng :: rest) fs =
      load_outputs rest
        (writeGpkgLayer ng.1 ng.2
          (setFile (geojsonPath ng.1) (FileContent.geojson ng.2) fs)) := rfl

/-- A collection whose name is not among the writes keeps both of its
artifacts through them. -/
theorem load_outputs_preserves (n : String) :
    ∀ (gdfs : List (String × Frame)) (fs : FS), n ∉ gdfs.map Prod.fst →
      getFile (load_outputs gdfs fs) (geojsonPath n) = getFile fs (geojsonPath n)
      ∧ gpkgLayerOf (load_outputs gdfs fs) n = gpkgLayerOf fs n := by
  intro gdfs
  induction gdfs with
  | nil => intro fs _; exact ⟨rfl, rfl⟩
  | cons ng rest ih =>
    intro fs hn
    have hn1 : ¬ n = ng.1 := by
      intro he
      apply hn
      rw [List.map_cons, he]
      exact List.mem_cons_self _ _
    have hn2 : n ∉ rest.map Prod.fst := by
      intro hm
      apply hn
      rw [List.map_cons]
      exact List.mem_cons_of_mem _ hm
    rw [load_outputs_cons]
    obtain ⟨ih1, ih2⟩ := ih
      (writeGpkgLayer ng.1 ng.2 (setFile (geojsonPath ng.1) (FileContent.geojson ng.2) fs))
      hn2
    exact ⟨ih1.trans (getFile_loadStep_other ng.1 n ng.2 fs hn1),
           ih2.trans (gpkgLayerOf_loadStep_other ng.1 n ng.2 fs hn1)⟩

/-- Every named collection ends up in both artifacts. -/
theorem load_outputs_writes :
    ∀ (gdfs : List (String × Frame)), (gdfs.map Prod.fst).Nodup →
      ∀ (fs : FS), ∀ ng ∈ gdfs,
        getFile (load_outputs gdfs fs) (geojsonPath ng.1) =
          some (FileContent.geojson ng.2)
        ∧ gpkgLayerOf (load_outputs gdfs fs) ng.1 = some ng.2 := by
  intro gdfs
  induction gdfs with
  | nil =>
    intro _ fs ng hng
    cases hng
  | cons ng0 rest ih =>
    intro hnodup fs ng hng
    rw [List.map_cons, List.nodup_cons] at hnodup
    rw [load_outputs_cons]
    rcases List.mem_cons.mp hng with he | hmem
    · subst he
      obtain ⟨p1, p2⟩ := load_outputs_preserves ng.1 rest
        (writeGpkgLayer ng.1 ng.2 (setFile (geojsonPath ng.1) (FileContent.geojson ng.2) fs))
        hnodup.1
      obtain ⟨o1, o2⟩ := loadStep_own ng.1 ng.2 fs
      exact ⟨p1.trans o1, p2.trans o2⟩
    · exact ih hnodup.2 _ ng hmem

/-- The output directory exists after its idempotent creation. -/
theorem mem_mkdirIdem (d : String) (fs : FS) : d ∈ (mkdirIdem d fs).dirs := by
  rw [mkdirIdem]
  split
  next h => exact h
  next h => exact List.mem_cons_self _ _

/-- Creating the directory again does nothing. -/
theorem mkdirIdem_idem (d : String) (fs : FS) :
    mkdirIdem d (mkdirIdem d fs) = mkdirIdem d fs := by
  by_cases h : d ∈ fs.dirs
  · simp [mkdirIdem, h]
  · simp [mkdirIdem, h]

/-- C9: for every non-empty family of distinctly named collections,
the writer (run after the module-level idempotent directory creation)
produces, for each named collection, the standalone GeoJSON file named
after it AND the same collection as the like-named layer of the single
shared GeoPackage container; the directory exists afterwards and its
creation is idempotent.  The statement holds for an arbitrary initial
filesystem `fs0`, so pre-existing files at those paths are silently
overwritten: the read-back content is the newly written one regardless
of what was there. -/
theorem load_outputs_spec (gdfs : List (String × Frame)) (fs0 : FS)
    (_hne : gdfs ≠ []) (hnodup : (gdfs.map Prod.fst).Nodup) :
    (∀ ng ∈ gdfs,
      getFile (load_outputs gdfs (mkdirIdem OUTPUT_DIR fs0)) (geojsonPath ng.1) =
        some (FileContent.geojson ng.2)
      ∧ gpkgLayerOf (load_outputs gdfs (mkdirIdem OUTPUT_DIR fs0)) ng.1 = some ng.2)
    ∧ OUTPUT_DIR ∈ (load_outputs gdfs (mkdirIdem OUTPUT_DIR fs0)).dirs
    ∧ mkdirIdem OUTPUT_DIR (mkdirIdem OUTPUT_DIR fs0) = mkdirIdem OUTPUT_DIR fs0 := by
  refine ⟨load_outputs_writes gdfs hnodup (mkdirIdem OUTPUT_DIR fs0), ?_, ?_⟩
  · rw [load_outputs_dirs]
    exact mem_mkdirIdem OUTPUT_DIR fs0
  · exact mkdirIdem_idem OUTPUT_DIR fs0

/-- Concrete witness for C9: two named collections written over a
filesystem that already holds a stale file at the schools path; both
artifacts read back as the new content, the directory exists, and a
second directory creation is a no-op. -/
theorem load_outputs_spec_witness :
    getFile
        (load_outputs
          [("schools", ⟨some CRS_OUT, ["a"], []⟩),
           ("education_all", ⟨some CRS_OUT, ["a"], []⟩)]
          (mkdirIdem OUTPUT_DIR
            ⟨[], [(geojsonPath "schools", FileContent.gpkg [])]⟩))
        (geojsonPath "schools") =
      some (FileContent.geojson ⟨some CRS_OUT, ["a"], []⟩)
    ∧ gpkgLayerOf
        (load_outputs
          [("schools", ⟨some CRS_OUT, ["a"], []⟩),
           ("education_all", ⟨some CRS_OUT, ["a"], []⟩)]
          (mkdirIdem OUTPUT_DIR
            ⟨[], [(geojsonPath "schools", FileContent.gpkg [])]⟩))
        "education_all" =
      some ⟨some CRS_OUT, ["a"], []⟩
    ∧ OUTPUT_DIR ∈
        (load_outputs
          [("schools", ⟨some CRS_OUT, ["a"], []⟩),
           ("education_all", ⟨some CRS_OUT, ["a"], []⟩)]
          (mkdirIdem OUTPUT_DIR
            ⟨[], [(geojsonPath "schools", FileContent.gpkg [])]⟩)).dirs := by
  have h := load_outputs_spec
    [("schools", ⟨some CRS_OUT, ["a"], []⟩),
     ("education_all", ⟨some CRS_OUT, ["a"], []⟩)]
    ⟨[], [(geojsonPath "schools", FileContent.gpkg [])]⟩
    (by simp) (by decide)
  exact ⟨(h.1 ("schools", ⟨some CRS_OUT, ["a"], []⟩) (by decide)).1,
    (h.1 ("education_all", ⟨some CRS_OUT, ["a"], []⟩) (by decide)).2,
    h.2.1⟩

/-! ## The pipeline driver (`main`, lines 137-155)

`main` iterates the configured layers in order, running extract then
transform for each; it then appends the combined dataset under
`"education_all"` and writes all outputs.  A raised error propagates
immediately: nothing after the failing extraction runs, in particular
`load_outputs` — so the filesystem is untouched on failure. -/

/-- The remote feature service as seen by the pipeline: the records a
layer serves, the CRS it reports, and its attribute columns. -/
structure Service where
  records : Nat → List Row
  sourceCrs : Nat → Option String
  columnsOf : Nat → List String

/-- The extract-transform loop of `main`: for each configured
`(name, layer_id)` run `extract_layer` then `transform`, accumulating
the per-layer normalized frames; the first error aborts the loop. -/
def runLayers (reproj : String → Geom → Geom) (svc : Service) (P : Nat) :
    List (String × Nat) → Except EtlError (List (String × Frame))
  | [] => Except.ok []
  | nl :: rest =>
    match extract_layer (svc.records nl.2) P nl.2 with
    | Except.error e => Except.error e
    | Except.ok out =>
      match runLayers reproj svc P rest with
      | Except.error e => Except.error e
      | Except.ok acc =>
        Except.ok
          ((nl.1, transform reproj ⟨svc.sourceCrs nl.2, svc.columnsOf nl.2, out.1⟩ nl.1)
            :: acc)

/-- The whole `main` pipeline over a filesystem: extract and transform
every configured layer, then merge into `"education_all"` and write all
outputs; on any error the filesystem is returned unchanged together
with the error. -/
def main (reproj : String → Geom → Geom) (svc : Service) (P : Nat)
    (layers : List (String × Nat)) (fs : FS) : FS × Except EtlError Unit :=
  match runLayers reproj svc P layers with
  | Except.error e => (fs, Except.error e)
  | Except.ok all_layers =>
    (load_outputs
      (all_layers ++ [("education_all", combinedFrame (all_layers.map Prod.snd))]) fs,
     Except.ok ())

/-- A layer whose service holds no records makes the extract-transform
loop fail with `EmptyLayerError` (for the first such layer reached). -/
theorem runLayers_empty (reproj : String → Geom → Geom) (svc : Service) (P : Nat)
    (hP : 0 < P) :
    ∀ layers : List (String × Nat),
      (∃ nl ∈ layers, svc.records nl.2 = []) →
      ∃ lid, (∃ nm, (nm, lid) ∈ layers ∧ svc.records lid = [])
        ∧ runLayers reproj svc P layers = Except.error (EtlError.emptyLayer lid) := by
  intro layers
  induction layers with
  | nil =>
    rintro ⟨nl, h, _⟩
    cases h
  | cons nl0 rest ih =>
    rintro ⟨nl, hmem, hemp⟩
    by_cases h0 : svc.records nl0.2 = []
    · refine ⟨nl0.2, ⟨nl0.1, List.mem_cons_self _ _, h0⟩, ?_⟩
      have he : extract_layer (svc.records nl0.2) P nl0.2 =
          Except.error (EtlError.emptyLayer nl0.2) := by
        rw [h0, extract_layer]
        have h1 : extractLoop ([] : List Row) P 0 (([] : List Row).length + 2) =
            some ([], 1) := by
          have h2 := extractLoop_spec ([] : List Row) P hP
            (([] : List Row).length + 2) 0 (by simp)
          have h3 : (([] : List Row).length - 0 + P - 1) / P = 0 :=
            Nat.div_eq_of_lt (by simp only [List.length_nil]; omega)
          rw [h2, h3]
          simp
        rw [h1]
        rfl
      rw [runLayers, he]
    · have hnl : nl ∈ rest := by
        rcases List.mem_cons.mp hmem with he | hm
        · exact absurd (he ▸ hemp) h0
        · exact hm
      obtain ⟨lid, ⟨nm, hmem', hemp'⟩, hrun⟩ := ih ⟨nl, hnl, hemp⟩
      refine ⟨lid, ⟨nm, List.mem_cons_of_mem _ hmem', hemp'⟩, ?_⟩
      rw [runLayers, (extract_layer_pagination (svc.records nl0.2) P nl0.2 hP h0).1,
        hrun]

/-- C5: if any configured layer's extraction accumulates zero records
(its service returns an empty first page), the run aborts with
`EmptyLayerError` for such a layer and the filesystem is returned
exactly as it was — no output file has been written at the moment of
failure. -/
theorem main_empty_layer (reproj : String → Geom → Geom) (svc : Service) (P : Nat)
    (hP : 0 < P) (layers : List (String × Nat)) (fs : FS)
    (hex : ∃ nl ∈ layers, svc.records nl.2 = []) :
    ∃ lid, (∃ nm, (nm, lid) ∈ layers ∧ svc.records lid = [])
      ∧ main reproj svc P layers fs = (fs, Except.error (EtlError.emptyLayer lid)) := by
  obtain ⟨lid, hw, hrun⟩ := runLayers_empty reproj svc P hP layers hex
  refine ⟨lid, hw, ?_⟩
  rw [main, hrun]

/-- Concrete witness for C5: a configured `schools` layer whose service
returns no records aborts the run with `EmptyLayerError` over an empty
filesystem that stays empty. -/
theorem main_empty_layer_witness :
    main (fun _ g => g) ⟨fun _ => [], fun _ => none, fun _ => []⟩ 2000
        [("schools", 76)] ⟨[], []⟩ =
      (⟨[], []⟩, Except.error (EtlError.emptyLayer 76)) := by
  obtain ⟨lid, ⟨nm, hmem, _⟩, heq⟩ :=
    main_empty_layer (fun _ g => g) ⟨fun _ => [], fun _ => none, fun _ => []⟩ 2000
      (by omega) [("schools", 76)] ⟨[], []⟩ ⟨("schools", 76), by decide, rfl⟩
  have h76 : lid = 76 := by
    simp at hmem
    exact hmem.2
  rw [h76] at heq
  exact heq

end BuildingEtl
